import Mathlib

/-!
Verification of the relay coordination protocol and access-modifier store of
the escale/syncacre file synchronizer.

The Python sources are shallowly embedded: Python strings (paths, blob names,
blob contents) become `List Char`, fallible calls return `Except`, and the
stateful composite operations become explicit state transformers on the
relevant projection of the remote store.  Each definition is annotated with
the source file and lines it embeds.
-/

namespace Escale

/-- Python strings are embedded as lists of characters. -/
abbrev Name := List Char

/-- Convert a Lean string literal to the embedded representation. -/
def str (s : String) : Name := s.toList

/-- Number of lines of a text file as counted by Python `readlines`:
each newline-terminated chunk plus a final chunk when the text does not end
with a newline; the empty text has zero lines. -/
def pyNumLines (s : Name) : Nat :=
  if s = [] then 0
  else s.count '\n' + (if s.getLast? = some '\n' then 0 else 1)

/-- Python slice `f[len(pre):-len(suf)]` with `end = None` when `suf` is
empty, as used by the marker decoders (relay.py 425-437, 497-505). -/
def pySliceFrom (pre suf f : Name) : Name :=
  if suf = [] then f.drop pre.length
  else (f.take (f.length - suf.length)).drop pre.length

/-! ## Path manipulation: os.path.split, os.path.join, with_path -/

/-- Tail component of `os.path.split`: everything after the last slash. -/
def splitTail (p : Name) : Name := (p.reverse.takeWhile (· ≠ '/')).reverse

/-- Head of `os.path.split` before stripping trailing slashes. -/
def splitHeadRaw (p : Name) : Name := p.take (p.length - (splitTail p).length)

/-- Python `rstrip` with slash: drop trailing slashes. -/
def rstripSlash (p : Name) : Name := (p.reverse.dropWhile (· = '/')).reverse

/-- Head component of `os.path.split`: the part up to the last slash,
stripped of trailing slashes unless it consists only of slashes. -/
def splitHead (p : Name) : Name :=
  let h := splitHeadRaw p
  if h ≠ [] ∧ ¬ (h.all (· = '/') = true) then rstripSlash h else h

/-- `os.path.split`. -/
def pySplit (p : Name) : Name × Name := (splitHead p, splitTail p)

/-- `os.path.join` for two components: an absolute second component wins;
an empty head contributes nothing; a head ending in a slash is not given
another one. -/
def pyJoin (d f : Name) : Name :=
  if f.head? = some '/' then f
  else if d = [] then f
  else if d.getLast? = some '/' then d ++ f
  else d ++ '/' :: f

/-- `with_path` (relay.py 28-33): apply a filename manipulation to the final
path component, keeping the directory part. -/
def withPath (p : Name) (fn : Name → Name) : Name :=
  pyJoin (pySplit p).1 (fn (pySplit p).2)

/-! ## Marker codec (relay.py 345-530)

The affixes configured in `Relay.__init__` (relay.py 354-364); the message
hash is `None` unless timestamped messages are requested. -/

structure Cfg where
  phPre : Name
  phSuf : Name
  lkPre : Name
  lkSuf : Name
  msgPre : Name
  msgSuf : Name
  msgHash : Option (Name → Name)

/-- The default configuration built by `Relay.__init__` (relay.py 354-370). -/
def defaultCfg : Cfg :=
  { phPre := str "."
    phSuf := str ".placeholder"
    lkPre := str "."
    lkSuf := str ".lock"
    msgPre := str "."
    msgSuf := str ".message"
    msgHash := none }

/-- `Relay._placeholder` (relay.py 411-412). -/
def placeholderRaw (c : Cfg) (f : Name) : Name := c.phPre ++ f ++ c.phSuf

/-- `Relay._lock` (relay.py 414-415). -/
def lockRaw (c : Cfg) (f : Name) : Name := c.lkPre ++ f ++ c.lkSuf

/-- `Relay._isPlaceholder` (relay.py 417-419). -/
def isPlaceholderRaw (c : Cfg) (f : Name) : Bool :=
  c.phPre.isPrefixOf f && c.phSuf.isSuffixOf f

/-- `Relay._isLock` (relay.py 421-423). -/
def isLockRaw (c : Cfg) (f : Name) : Bool :=
  c.lkPre.isPrefixOf f && c.lkSuf.isSuffixOf f

/-- `Relay._fromPlaceholder` (relay.py 425-430). -/
def fromPlaceholderRaw (c : Cfg) (f : Name) : Name := pySliceFrom c.phPre c.phSuf f

/-- `Relay._fromLock` (relay.py 432-437). -/
def fromLockRaw (c : Cfg) (f : Name) : Name := pySliceFrom c.lkPre c.lkSuf f

/-- `Relay._safePlaceholder` (relay.py 439-443). -/
def safePlaceholder (c : Cfg) (f : Name) : Name :=
  if isPlaceholderRaw c f then f else placeholderRaw c f

/-- `Relay._safeLock` (relay.py 445-449). -/
def safeLock (c : Cfg) (f : Name) : Name :=
  if isLockRaw c f then f else lockRaw c f

/-- `Relay.placeholder` (relay.py 451-452). -/
def placeholderPath (c : Cfg) (p : Name) : Name := withPath p (safePlaceholder c)

/-- `Relay.lock` (relay.py 454-455). -/
def lockPath (c : Cfg) (p : Name) : Name := withPath p (safeLock c)

/-- `Relay.isPlaceholder` (relay.py 457-458): classify by the basename,
which `os.path` computes as the split tail. -/
def isPlaceholderPath (c : Cfg) (p : Name) : Bool := isPlaceholderRaw c (pySplit p).2

/-- `Relay.isLock` (relay.py 460-461). -/
def isLockPath (c : Cfg) (p : Name) : Bool := isLockRaw c (pySplit p).2

/-- `Relay.fromPlaceholder` (relay.py 463-464). -/
def fromPlaceholderPath (c : Cfg) (p : Name) : Name := withPath p (fromPlaceholderRaw c)

/-- `Relay.fromLock` (relay.py 466-467). -/
def fromLockPath (c : Cfg) (p : Name) : Name := withPath p (fromLockRaw c)

/-- `Relay._isMessage` (relay.py 470-472). -/
def isMessageRaw (c : Cfg) (f : Name) : Bool :=
  c.msgPre.isPrefixOf f && c.msgSuf.isSuffixOf f

/-- `Relay._isSpecial` (relay.py 511-514): a name is special when it is a
lock, a placeholder or a message. -/
def isSpecialRaw (c : Cfg) (f : Name) : Bool :=
  isLockRaw c f || isPlaceholderRaw c f || isMessageRaw c f

/-- `Relay.isSpecial` (relay.py 516-517). -/
def isSpecialPath (c : Cfg) (p : Name) : Bool := isSpecialRaw c (pySplit p).2

/-- Exceptions raised by the codec paths of relay.py. -/
inductive PyExc where
  | attributeError
  | valueError
  deriving DecidableEq

/-- `Relay._message` (relay.py 477-485) as it executes: the body reads
`self.message_hash`, but the attribute set by `__init__` and declared in
`__slots__` is `_message_hash`, so the lookup raises `AttributeError`
before any branch of the body runs. -/
def messageRaw (_c : Cfg) (_f _fpath : Name) : Except PyExc Name :=
  Except.error PyExc.attributeError

/-- `Relay._message` (relay.py 477-485) as documented: the same body with
the attribute `_message_hash` that `__init__` assigns and the class
docstring describes, in place of the misspelt `message_hash`. -/
def messageRawIntended (c : Cfg) (f fpath : Name) : Except PyExc Name :=
  match c.msgHash with
  | none => Except.ok (c.msgPre ++ f ++ c.msgSuf)
  | some h =>
      let hv := h fpath
      if '.' ∈ hv then Except.error PyExc.valueError
      else Except.ok (c.msgPre ++ f ++ ('.' :: hv) ++ c.msgSuf)

/-- `Relay._fromMessage` (relay.py 497-505): slice off the affixes, and when
a message hash is configured also strip the final dot-separated segment
(`message[::-1].split(chr(46), 1)[1][::-1]`); Python raises `IndexError`
when no dot is present, a case never produced by the encoder. -/
def fromMessageRaw (c : Cfg) (f : Name) : Name :=
  let m := pySliceFrom c.msgPre c.msgSuf f
  match c.msgHash with
  | none => m
  | some _ => ((m.reverse.dropWhile (· ≠ '.')).drop 1).reverse

/-! ## Transport error seam: `Relay._safe` (relay.py 543-563) -/

/-- Errors crossing the `_safe` seam: an `EnvironmentError` carrying an
optional `errno` (absent models the `AttributeError` fallback of the
handler), the promoted `UnrecoverableError`, or any other exception. -/
inductive TransportErr where
  | envError (errno : Option Int)
  | unrecoverable (errno : Option Int)
  | other
  deriving DecidableEq

/-- `Relay._safe` (relay.py 543-563): run the callback; when it raises an
`EnvironmentError` whose `errno` equals 24, raise `UnrecoverableError`
instead; when the error has no `errno` attribute, or any other error is
raised, re-raise it unchanged. -/
def safeWrap {α : Type} (r : Except TransportErr α) : Except TransportErr α :=
  match r with
  | Except.error (TransportErr.envError e) =>
      if e = some 24 then Except.error (TransportErr.unrecoverable e)
      else Except.error (TransportErr.envError e)
  | r => r

/-! ## Listing primitives (relay.py 585-618)

The abstract transport `_list` is a parameter: a fixed listing of the
queried directory. -/

/-- `Relay.listReady` (relay.py 585-597): keep the listed names whose
basename is neither a lock nor a placeholder and whose lock name, joined
onto the same directory, is absent from the listing. -/
def listReady (c : Cfg) (ls : List Name) : List Name :=
  ls.filter (fun file =>
    let fd := (pySplit file).1
    let fn := (pySplit file).2
    let lk := pyJoin fd (lockRaw c fn)
    !(isLockRaw c fn) && !(isPlaceholderRaw c fn) && !(decide (lk ∈ ls)))

/-- `Relay.listCorrupted` (relay.py 599-618).  `client` is this client
(empty list models an unset identifier), `lockTimeout` the numeric
`lock_timeout` (0 models both `0` and `False`, the falsy cases), `owner`
gives the parsed owner of the lock blob for each decoded target (empty for
an absent or unparseable owner, mirroring `getLockInfo`), `now` is
`time.time()`, and `ls` associates listed names with their mtimes (0 models
a falsy mtime).  The result collects the decoded targets of the locks kept,
standing for the returned `LockInfo` records. -/
def listCorrupted (c : Cfg) (client : Name) (lockTimeout : Int)
    (owner : Name → Name) (now : Int) (rdir : Name)
    (ls : List (Name × Int)) : List Name :=
  if client = [] ∧ lockTimeout = 0 then []
  else
    ((ls.filter (fun e =>
        isLockPath c e.1 &&
        (let ow := owner (pyJoin rdir (fromLockPath c e.1))
         if ow ≠ [] then ow == client
         else e.2 != 0 && lockTimeout != 0 && decide (lockTimeout < now - e.2)))).map
      (fun e => pyJoin rdir (fromLockPath c e.1)))

/-! ## Placeholder protocol: markAsRead and pop (relay.py 905-957)

The composite operations are modelled on the projection of the remote
store to the blobs of one regular file: the regular blob and its
placeholder, each an optional content. -/

/-- Blobs of one regular file on the relay: content of the regular blob
and of its placeholder (`none` means the blob is absent). -/
structure FileSlot where
  regular : Option Name
  ph : Option Name
  deriving DecidableEq

/-- Errors of the pop/markAsRead flow: `_get` and `_pop` fail on missing
blobs (relay.py 689-694, 857-903). -/
inductive PopErr where
  | missingRegular
  | missingPlaceholder
  deriving DecidableEq

/-- `Relay.markAsRead` (relay.py 944-957), as the new content of the remote
placeholder.  `localPh` is the content of the local placeholder copy passed
by the caller, when any: `get = not local_placeholder`, and only on the
`get` path does the method download the placeholder and append a newline
followed by the client identifier before pushing; with a caller-supplied
local copy the copy is pushed back verbatim. -/
def markAsRead (client : Name) (localPh : Option Name) (remotePh : Option Name) :
    Except PopErr Name :=
  match localPh with
  | none =>
      match remotePh with
      | none => Except.error PopErr.missingPlaceholder
      | some cont => Except.ok (cont ++ '\n' :: client)
  | some lp => Except.ok lp

/-- Body of `Relay.pop` between `acquireLock` and `releaseLock`
(relay.py 909-930), acting on the blobs of the popped file.  `n` is the
`placeholder` argument: the puller count, with 0 modelling a falsy value
and 1 modelling `True`.  Lines 910-919 download the placeholder and set
`let` when `n` exceeds 1; lines 920-923 `_get` (keep) or `_pop` (delete)
the regular blob, either failing when it is absent; lines 924-930 update
the placeholder through `markAsRead` — passing the local copy exactly when
one was downloaded — or create an empty one via `updatePlaceholder`. -/
def popEffect (client : Name) (n : Nat) (s : FileSlot) : Except PopErr FileSlot :=
  let hasPh := s.ph.isSome
  let dl : Option Name := if n ≠ 0 ∧ hasPh ∧ 1 < n then s.ph else none
  let letKeep : Bool :=
    match dl with
    | some phc => decide ((pyNumLines phc : Int) - 1 < (n : Int) - 1)
    | none => false
  if s.regular.isNone then Except.error PopErr.missingRegular
  else
    let regular' : Option Name := if letKeep then s.regular else none
    if n ≠ 0 then
      if hasPh then
        match markAsRead client dl s.ph with
        | Except.ok ph' => Except.ok { regular := regular', ph := some ph' }
        | Except.error e => Except.error e
      else
        Except.ok { regular := regular', ph := some [] }
    else
      Except.ok { regular := regular', ph := s.ph }

/-! ## Access-attribute store (access.py 56-204)

The dbm table becomes an association list from keys to two-character
values; `TableEntry.get` defaults to the undefined pair. -/

/-- Lookup in the keyed store (`TableEntry.get`, access.py 72-77). -/
def lookupStore (st : List (Name × Name)) (k : Name) : Option Name :=
  match st with
  | [] => none
  | (k', v) :: t => if k' = k then some v else lookupStore t k

/-- Write through the keyed store (`TableEntry.set`, access.py 82-83). -/
def setStore (st : List (Name × Name)) (k v : Name) : List (Name × Name) :=
  match st with
  | [] => [(k, v)]
  | (k', v') :: t => if k' = k then (k', v) :: t else (k', v') :: setStore t k v

/-- Symbol encoding of `AccessAttributes._encode` (access.py 116-124):
space for undefined, plus for allowed, minus for denied. -/
def encodePerm : Option Bool → Char
  | some true => '+'
  | some false => '-'
  | none => ' '

/-- The both-undefined record value `self._undefined` (access.py 96). -/
def undefinedVal : Name := str "  "

/-- `AccessAttributes._set` (access.py 173-180): read the record (defaulting
to the undefined pair), splice the encoded symbol at position `attr` via
`join`, and store it.  The deletion test of line 177 is
`attributes is self._undefined`: object identity against the instance
attribute, while `attributes` was freshly built by `join` on line 176, so
the test is false on every call and the `entry.delete()` branch is dead
code; the definition therefore always stores. -/
def accessSet (st : List (Name × Name)) (attr : Nat) (k : Name) (perm : Option Bool) :
    List (Name × Name) :=
  let old := (lookupStore st k).getD undefinedVal
  let nv := old.take attr ++ encodePerm perm :: old.drop (attr + 1)
  setStore st k nv

/-- `AccessAttributes.setReadability` (access.py 191-192): `self._r = 0`. -/
def setReadabilityA (st : List (Name × Name)) (k : Name) (r : Option Bool) :
    List (Name × Name) :=
  accessSet st 0 k r

/-- `AccessAttributes.setWritability` (access.py 203-204): `self._w = 1`. -/
def setWritabilityA (st : List (Name × Name)) (k : Name) (w : Option Bool) :
    List (Name × Name) :=
  accessSet st 1 k w

/-- Failure of the controller guard (access.py 399): the `OSError` raised
when the file cannot be found in the repository. -/
inductive AccessErr where
  | fileNotFound
  deriving DecidableEq

/-- `AccessController.__safe__` (access.py 383-399) for repository-relative
filenames (the `_format` branch for a relative path, access.py 374-377:
`relpath = filename`, `abspath = join(root, filename)`).  When the file is
missing from the filesystem the guard keeps `relpath` if the key is already
present in the persistent store (`relpath in self.persistent`,
access.py 129-134) and clears it otherwise; an empty filename is falsy and
also leads to the raise.  On success the callback mutates the store. -/
def safeAccess (localExists : Name → Bool) (root : Name) (st : List (Name × Name))
    (f : Name) (access : List (Name × Name) → Name → List (Name × Name)) :
    Except AccessErr (List (Name × Name)) :=
  let relpath := f
  let abspath := pyJoin root f
  let rel' : Option Name :=
    if relpath ≠ [] ∧ localExists abspath = false then
      (if (lookupStore st relpath).isSome then some relpath else none)
    else (if relpath = [] then none else some relpath)
  match rel' with
  | some rp => Except.ok (access st rp)
  | none => Except.error AccessErr.fileNotFound

/-- `AccessController.setReadability` (access.py 407-408). -/
def ctlSetReadability (localExists : Name → Bool) (root : Name)
    (st : List (Name × Name)) (f : Name) (r : Option Bool) :
    Except AccessErr (List (Name × Name)) :=
  safeAccess localExists root st f (fun s k => setReadabilityA s k r)

/-- `AccessController.setWritability` (access.py 410-411). -/
def ctlSetWritability (localExists : Name → Bool) (root : Name)
    (st : List (Name × Name)) (f : Name) (w : Option Bool) :
    Except AccessErr (List (Name × Name)) :=
  safeAccess localExists root st f (fun s k => setWritabilityA s k w)

/-! ## hasPlaceholder / hasLock, base and list-based (relay.py 709-745,
959-962, 1025-1061)

The transport listing is a parameter mapping a directory to its
non-recursive listing. -/

/-- `Relay.exists` (relay.py 959-962): when no directory is given, split
the filename; then test membership in the non-recursive listing. -/
def existsBlob (listing : Name → List Name) (filename : Name) (dirname : Name) : Bool :=
  if dirname = [] then decide ((pySplit filename).2 ∈ listing (pySplit filename).1)
  else decide (filename ∈ listing dirname)

/-- `Relay.hasPlaceholder` (relay.py 709-726): existence of the placeholder
name in the directory of the regular file. -/
def hasPlaceholderBase (c : Cfg) (listing : Name → List Name) (rf : Name) : Bool :=
  existsBlob listing (placeholderRaw c (pySplit rf).2) (pySplit rf).1

/-- `Relay.hasLock` (relay.py 728-745). -/
def hasLockBase (c : Cfg) (listing : Name → List Name) (rf : Name) : Bool :=
  existsBlob listing (lockRaw c (pySplit rf).2) (pySplit rf).1

/-- `IRelay.listPlaceholders` (relay.py 1025-1038). -/
def listPlaceholders (c : Cfg) (listing : Name → List Name) (rdir : Name) : List Name :=
  (listing rdir).filter (fun file => isPlaceholderPath c file)

/-- `IRelay.listLocks` (relay.py 1040-1053). -/
def listLocks (c : Cfg) (listing : Name → List Name) (rdir : Name) : List Name :=
  (listing rdir).filter (fun file => isLockPath c file)

/-- `IRelay.hasPlaceholder` (relay.py 1055-1057): membership of the
placeholder name in the list of all placeholders of the directory. -/
def hasPlaceholderI (c : Cfg) (listing : Name → List Name) (rf : Name) : Bool :=
  decide (placeholderRaw c (pySplit rf).2 ∈ listPlaceholders c listing (pySplit rf).1)

/-- `IRelay.hasLock` (relay.py 1059-1061). -/
def hasLockI (c : Cfg) (listing : Name → List Name) (rf : Name) : Bool :=
  decide (lockRaw c (pySplit rf).2 ∈ listLocks c listing (pySplit rf).1)

/-- Shape of directory components produced by `os.path.split`: empty, all
slashes, or not ending in a slash. -/
def canonicalDir (d : Name) : Prop :=
  d = [] ∨ d.all (· = '/') = true ∨ d.getLast? ≠ some '/'

/-! ## General list lemmas -/

theorem takeWhile_append_all {p : Char → Bool} (xs ys : List Char)
    (h : xs.all p = true) :
    List.takeWhile p (xs ++ ys) = xs ++ List.takeWhile p ys := by
  induction xs with
  | nil => rfl
  | cons a t ih =>
      rw [List.all_cons, Bool.and_eq_true] at h
      rw [List.cons_append, List.takeWhile_cons, if_pos h.1, ih h.2, List.cons_append]

theorem takeWhile_all {p : Char → Bool} (xs : List Char) (h : xs.all p = true) :
    List.takeWhile p xs = xs := by
  have := takeWhile_append_all xs [] h
  simpa using this

theorem takeWhile_cons_false {p : Char → Bool} (a : Char) (l : List Char)
    (h : p a = false) : List.takeWhile p (a :: l) = [] := by
  rw [List.takeWhile_cons, h]
  rfl

theorem dropWhile_head_false {p : Char → Bool} :
    ∀ (l : List Char) (a : Char), (List.dropWhile p l).head? = some a → p a = false := by
  intro l
  induction l with
  | nil => intro a h; exact absurd h (by simp)
  | cons b t ih =>
      intro a h
      rw [List.dropWhile_cons] at h
      by_cases hb : p b = true
      · rw [if_pos hb] at h
        exact ih a h
      · rw [if_neg hb] at h
        have : b = a := by simpa using h
        subst this
        exact Bool.eq_false_iff.mpr hb

theorem dropWhile_of_head_false {p : Char → Bool} (l : List Char)
    (h : ∀ a, l.head? = some a → p a = false) : List.dropWhile p l = l := by
  cases l with
  | nil => rfl
  | cons a t => rw [List.dropWhile_cons, h a rfl]; rfl

theorem mem_of_getLast?_eq {l : List Char} {a : Char} (h : l.getLast? = some a) :
    a ∈ l := by
  obtain ⟨hne, heq⟩ := List.mem_getLast?_eq_getLast (l := l) (x := a) (by rw [h]; rfl)
  rw [heq]
  exact List.getLast_mem hne

/-! ## Path lemmas: split and join -/

theorem splitTail_all_no_slash (p : Name) : (splitTail p).all (· ≠ '/') = true := by
  unfold splitTail
  rw [List.all_reverse, List.all_eq_true]
  intro x hx
  exact List.mem_takeWhile_imp (p := fun c => decide (c ≠ '/')) hx

theorem rstripSlash_no_trailing (h : Name) : (rstripSlash h).getLast? ≠ some '/' := by
  unfold rstripSlash
  rw [List.getLast?_reverse]
  intro hc
  have := dropWhile_head_false (p := (· = '/')) h.reverse '/' hc
  simp at this

theorem splitHead_canonical (p : Name) : canonicalDir (splitHead p) := by
  unfold splitHead canonicalDir
  by_cases hc : splitHeadRaw p ≠ [] ∧ ¬ ((splitHeadRaw p).all (· = '/') = true)
  · rw [if_pos hc]
    exact Or.inr (Or.inr (rstripSlash_no_trailing _))
  · rw [if_neg hc]
    rw [not_and_or, not_not, not_ne_iff] at hc
    rcases hc with hc | hc
    · exact Or.inl hc
    · exact Or.inr (Or.inl hc)

theorem pySplit_no_slash (g : Name) (h : g.all (· ≠ '/') = true) :
    pySplit g = ([], g) := by
  have ht : splitTail g = g := by
    unfold splitTail
    rw [takeWhile_all g.reverse (by rwa [List.all_reverse]), List.reverse_reverse]
  unfold pySplit splitHead splitHeadRaw
  rw [ht]
  simp

theorem head_no_slash (g : Name) (hg : g ≠ [])
    (hgs : g.all (· ≠ '/') = true) : g.head? ≠ some '/' := by
  cases g with
  | nil => exact absurd rfl hg
  | cons a t =>
      rw [List.all_cons, Bool.and_eq_true] at hgs
      simp only [List.head?_cons, ne_eq, Option.some.injEq]
      intro hc
      subst hc
      simp at hgs

theorem pySplit_join (d g : Name) (hd : canonicalDir d) (hg : g ≠ [])
    (hgs : g.all (· ≠ '/') = true) : pySplit (pyJoin d g) = (d, g) := by
  have hgh : g.head? ≠ some '/' := head_no_slash g hg hgs
  have hgrev : (g.reverse).all (· ≠ '/') = true := by rwa [List.all_reverse]
  by_cases hd0 : d = []
  · subst hd0
    have : pyJoin [] g = g := by
      unfold pyJoin
      rw [if_neg hgh, if_pos rfl]
    rw [this]
    exact pySplit_no_slash g hgs
  · by_cases hds : d.getLast? = some '/'
    · -- head ends in a slash; canonicity forces it to be all slashes
      have hall : d.all (· = '/') = true := by
        rcases hd with h | h | h
        · exact absurd h hd0
        · exact h
        · exact absurd hds h
      have hjoin : pyJoin d g = d ++ g := by
        unfold pyJoin
        rw [if_neg hgh, if_neg hd0, if_pos hds]
      rw [hjoin]
      have ht : splitTail (d ++ g) = g := by
        unfold splitTail
        rw [List.reverse_append, takeWhile_append_all _ _ hgrev]
        cases hrev : d.reverse with
        | nil => exact absurd (by simpa using congrArg List.reverse hrev) hd0
        | cons a t =>
            have ha : a = '/' := by
              have : d.reverse.head? = some '/' := by rw [List.head?_reverse]; exact hds
              rw [hrev] at this
              simpa using this
            rw [takeWhile_cons_false a t (by simp [ha])]
            rw [List.append_nil, List.reverse_reverse]
      have hh : splitHeadRaw (d ++ g) = d := by
        unfold splitHeadRaw
        rw [ht]
        rw [List.length_append, Nat.add_sub_cancel, List.take_left]
      unfold pySplit splitHead
      rw [ht, hh, if_neg (by
        push_neg
        intro _
        exact hall)]
    · -- head does not end in a slash: a separator is inserted
      have hjoin : pyJoin d g = d ++ '/' :: g := by
        unfold pyJoin
        rw [if_neg hgh, if_neg hd0, if_neg hds]
      rw [hjoin]
      obtain ⟨a, ha⟩ : ∃ a, d.getLast? = some a := by
        cases d with
        | nil => exact absurd rfl hd0
        | cons x xs => exact ⟨(x :: xs).getLast (by simp), (List.getLast?_eq_getLast _ _)⟩
      have hane : a ≠ '/' := fun hh => hds (hh ▸ ha)
      have ht : splitTail (d ++ '/' :: g) = g := by
        unfold splitTail
        rw [List.reverse_append, List.reverse_cons, List.append_assoc,
          takeWhile_append_all _ _ hgrev, List.singleton_append,
          takeWhile_cons_false '/' d.reverse (by simp), List.append_nil,
          List.reverse_reverse]
      have hh : splitHeadRaw (d ++ '/' :: g) = d ++ ['/'] := by
        unfold splitHeadRaw
        rw [ht]
        have hlen : (d ++ '/' :: g).length - g.length = d.length + 1 := by
          simp only [List.length_append, List.length_cons]
          omega
        rw [hlen]
        have : d ++ '/' :: g = (d ++ ['/']) ++ g := by simp
        rw [this, List.take_left' (by simp)]
      have hstrip : rstripSlash (d ++ ['/']) = d := by
        unfold rstripSlash
        rw [List.reverse_append]
        have : ((['/'] : Name).reverse) = ['/'] := rfl
        rw [this, List.singleton_append, List.dropWhile_cons, if_pos (by simp),
          dropWhile_of_head_false d.reverse (by
            intro b hb
            rw [List.head?_reverse] at hb
            rw [ha] at hb
            have : a = b := by simpa using hb
            subst this
            simpa using hane), List.reverse_reverse]
      unfold pySplit splitHead
      rw [ht, hh, if_pos ?cond, hstrip]
      case cond =>
        constructor
        · simp
        · intro hall
          rw [List.all_eq_true] at hall
          have : a ∈ d ++ ['/'] := List.mem_append_left _ (mem_of_getLast?_eq ha)
          have := hall a this
          simp at this
          exact hane this

theorem withPath_idem (fn : Name → Name)
    (h : ∀ t : Name, t.all (· ≠ '/') = true →
      (fn t).all (· ≠ '/') = true ∧ fn t ≠ [] ∧ fn (fn t) = fn t) :
    ∀ p : Name, withPath (withPath p fn) fn = withPath p fn := by
  intro p
  obtain ⟨h1, h2, h3⟩ := h (splitTail p) (splitTail_all_no_slash p)
  have hsplit : pySplit (pyJoin (splitHead p) (fn (splitTail p)))
      = (splitHead p, fn (splitTail p)) :=
    pySplit_join _ _ (splitHead_canonical p) h2 h1
  show pyJoin (pySplit (pyJoin (pySplit p).1 (fn (pySplit p).2))).1
      (fn (pySplit (pyJoin (pySplit p).1 (fn (pySplit p).2))).2)
    = pyJoin (pySplit p).1 (fn (pySplit p).2)
  have hp1 : (pySplit p).1 = splitHead p := rfl
  have hp2 : (pySplit p).2 = splitTail p := rfl
  rw [hp1, hp2, hsplit, h3]

/-! ## Codec affix lemmas -/

theorem isPrefixOf_append_self (pre x : Name) : pre.isPrefixOf (pre ++ x) = true := by
  rw [List.isPrefixOf_iff_prefix]
  exact List.prefix_append pre x

theorem isSuffixOf_append_self (x suf : Name) : suf.isSuffixOf (x ++ suf) = true := by
  rw [List.isSuffixOf_iff_suffix]
  exact List.suffix_append x suf

theorem isPlaceholderRaw_affix (c : Cfg) (f : Name) :
    isPlaceholderRaw c (placeholderRaw c f) = true := by
  unfold isPlaceholderRaw placeholderRaw
  rw [Bool.and_eq_true]
  refine ⟨?_, isSuffixOf_append_self _ _⟩
  rw [List.append_assoc]
  exact isPrefixOf_append_self _ _

theorem isLockRaw_affix (c : Cfg) (f : Name) :
    isLockRaw c (lockRaw c f) = true := by
  unfold isLockRaw lockRaw
  rw [Bool.and_eq_true]
  refine ⟨?_, isSuffixOf_append_self _ _⟩
  rw [List.append_assoc]
  exact isPrefixOf_append_self _ _

theorem pySliceFrom_affix (pre suf f : Name) :
    pySliceFrom pre suf (pre ++ f ++ suf) = f := by
  unfold pySliceFrom
  by_cases h : suf = []
  · subst h
    rw [if_pos rfl, List.append_nil, List.drop_left]
  · rw [if_neg h]
    have hlen : (pre ++ f ++ suf).length - suf.length = (pre ++ f).length := by
      simp only [List.length_append]
      omega
    rw [hlen, List.take_left, List.drop_left]

theorem fromPlaceholderRaw_affix (c : Cfg) (f : Name) :
    fromPlaceholderRaw c (placeholderRaw c f) = f :=
  pySliceFrom_affix c.phPre c.phSuf f

theorem fromLockRaw_affix (c : Cfg) (f : Name) :
    fromLockRaw c (lockRaw c f) = f :=
  pySliceFrom_affix c.lkPre c.lkSuf f

/-! ## Safe-wrapper properties needed for idempotence -/

theorem safePlaceholder_props :
    ∀ t : Name, t.all (· ≠ '/') = true →
      (safePlaceholder defaultCfg t).all (· ≠ '/') = true ∧
      safePlaceholder defaultCfg t ≠ [] ∧
      safePlaceholder defaultCfg (safePlaceholder defaultCfg t)
        = safePlaceholder defaultCfg t := by
  intro t ht
  by_cases hc : isPlaceholderRaw defaultCfg t = true
  · unfold safePlaceholder
    rw [if_pos hc, if_pos hc]
    refine ⟨ht, ?_, rfl⟩
    intro h0
    subst h0
    exact absurd hc (by decide)
  · unfold safePlaceholder
    rw [if_neg hc, if_pos (isPlaceholderRaw_affix defaultCfg t)]
    refine ⟨?_, ?_, rfl⟩
    · unfold placeholderRaw
      rw [List.all_append, List.all_append, ht]
      decide
    · unfold placeholderRaw
      intro h0
      rcases List.append_eq_nil.mp h0 with ⟨h1, h2⟩
      exact absurd h2 (by decide)

theorem safeLock_props :
    ∀ t : Name, t.all (· ≠ '/') = true →
      (safeLock defaultCfg t).all (· ≠ '/') = true ∧
      safeLock defaultCfg t ≠ [] ∧
      safeLock defaultCfg (safeLock defaultCfg t) = safeLock defaultCfg t := by
  intro t ht
  by_cases hc : isLockRaw defaultCfg t = true
  · unfold safeLock
    rw [if_pos hc, if_pos hc]
    refine ⟨ht, ?_, rfl⟩
    intro h0
    subst h0
    exact absurd hc (by decide)
  · unfold safeLock
    rw [if_neg hc, if_pos (isLockRaw_affix defaultCfg t)]
    refine ⟨?_, ?_, rfl⟩
    · unfold lockRaw
      rw [List.all_append, List.all_append, ht]
      decide
    · unfold lockRaw
      intro h0
      rcases List.append_eq_nil.mp h0 with ⟨h1, h2⟩
      exact absurd h2 (by decide)

/-- Membership in a listing and in its filtered sublist agree on an element
satisfying the filter. -/
theorem mem_filter_decide_eq (ls : List Name) (name : Name) (pred : Name → Bool)
    (hname : pred name = true) :
    decide (name ∈ ls) = decide (name ∈ ls.filter pred) := by
  rw [decide_eq_decide]
  constructor
  · intro h
    exact List.mem_filter.mpr ⟨h, hname⟩
  · intro h
    exact (List.mem_filter.mp h).1

/-- Evaluation of the pop body when the file has a placeholder and the
puller count exceeds one: the regular blob survives exactly when the read
count is still short of the quota, and the placeholder is re-uploaded with
the downloaded content unchanged. -/
theorem popEffect_gt1 (client r phc : Name) (n : Nat) (hn : 1 < n) :
    popEffect client n { regular := some r, ph := some phc }
      = Except.ok
          { regular :=
              if (pyNumLines phc : Int) - 1 < (n : Int) - 1 then some r else none
            ph := some phc } := by
  have hn0 : n ≠ 0 := by omega
  simp [popEffect, markAsRead, hn0, hn, decide_eq_true_eq]

/-! ## Claim theorems -/

/-- C1: the claim states that every invocation of markAsRead, including the
one made by pop when the puller count exceeds one and a local copy of the
placeholder was already downloaded, appends a newline and the client to the
remote placeholder.  The code contradicts it: in that invocation,
markAsRead is passed the downloaded copy and pushes it back verbatim, so
after such a pop the placeholder content is unchanged rather than extended
by one reader entry. -/
theorem claim1_markAsRead_no_append :
    popEffect (str "B") 2 { regular := some (str "x"), ph := some (str "1700000000") }
      = Except.ok { regular := some (str "x"), ph := some (str "1700000000") } ∧
    markAsRead (str "B") (some (str "1700000000")) (some (str "1700000000"))
      = Except.ok (str "1700000000") ∧
    str "1700000000" ++ '\n' :: str "B" ≠ str "1700000000" :=
  ⟨rfl, rfl, by decide⟩

/-- C2: pop with an existing placeholder and puller count N greater than 1
computes reads as line count minus one, deletes the remote regular file
exactly when reads reaches N minus 1, and otherwise downloads
non-destructively so the remote copy survives with its content. -/
theorem claim2_pop_deletion_gate (client r phc : Name) (n : Nat) (hn : 1 < n) :
    ∃ s' : FileSlot,
      popEffect client n { regular := some r, ph := some phc } = Except.ok s' ∧
      (s'.regular = none ↔ (n : Int) - 1 ≤ (pyNumLines phc : Int) - 1) ∧
      ((pyNumLines phc : Int) - 1 < (n : Int) - 1 → s'.regular = some r) := by
  rw [popEffect_gt1 client r phc n hn]
  refine ⟨_, rfl, ?_, ?_⟩
  · by_cases h : (pyNumLines phc : Int) - 1 < (n : Int) - 1
    · rw [if_pos h]
      constructor
      · intro hc
        exact absurd hc (by simp)
      · intro hle
        exact absurd hle (by omega)
    · rw [if_neg h]
      simp only [true_iff]
      omega
  · intro h
    rw [if_pos h]

/-- Witness for C2 at puller count 2 and a placeholder recording one read. -/
theorem claim2_witness :
    ∃ s' : FileSlot,
      popEffect (str "C") 2
          { regular := some (str "hi"), ph := some (str "1700000000\nB") }
        = Except.ok s' ∧
      (s'.regular = none ↔
        (2 : Int) - 1 ≤ (pyNumLines (str "1700000000\nB") : Int) - 1) ∧
      ((pyNumLines (str "1700000000\nB") : Int) - 1 < (2 : Int) - 1 →
        s'.regular = some (str "hi")) :=
  claim2_pop_deletion_gate (str "C") (str "hi") (str "1700000000\nB") 2 (by decide)

/-- C5: the claim states that a record whose two symbols both become
undefined is removed from the access store.  The code contradicts it: the
deletion test compares the freshly joined value with the undefined constant
by object identity, which never holds, so the record stays in the store
with the both-undefined value. -/
theorem claim5_zombie_record :
    setReadabilityA (setReadabilityA [] (str "f") (some true)) (str "f") none
      = [(str "f", undefinedVal)] ∧
    lookupStore
        (setReadabilityA (setReadabilityA [] (str "f") (some true)) (str "f") none)
        (str "f")
      = some undefinedVal :=
  ⟨rfl, rfl⟩

/-- C6 counterexample: the claim states that setReadability on a file
missing from the local repository always fails with file-not-found and
leaves the store unchanged.  With a record already present in the store the
call succeeds and rewrites the record although the file does not exist. -/
theorem claim6_counterexample :
    ctlSetReadability (fun _ => false) (str "repo") [(str "f", str "+ ")]
        (str "f") (some false)
      = Except.ok [(str "f", str "- ")] ∧
    str "- " ≠ str "+ " :=
  ⟨rfl, by decide⟩

/-- C6 as amended: setReadability and setWritability fail with
file-not-found when the filename is missing from the local repository and
has no record in the access store; the failure leaves the store
unmodified. -/
theorem claim6_amended (localExists : Name → Bool) (root : Name)
    (st : List (Name × Name)) (f : Name) (r w : Option Bool)
    (hne : f ≠ []) (hex : localExists (pyJoin root f) = false)
    (hrec : lookupStore st f = none) :
    ctlSetReadability localExists root st f r = Except.error AccessErr.fileNotFound ∧
    ctlSetWritability localExists root st f w = Except.error AccessErr.fileNotFound := by
  constructor
  · simp [ctlSetReadability, safeAccess, hne, hex, hrec]
  · simp [ctlSetWritability, safeAccess, hne, hex, hrec]

/-- Witness for C6 as amended: an unknown filename on an empty store. -/
theorem claim6_amended_witness :
    ctlSetReadability (fun _ => false) (str "repo") [] (str "g") (some true)
      = Except.error AccessErr.fileNotFound ∧
    ctlSetWritability (fun _ => false) (str "repo") [] (str "g") (some true)
      = Except.error AccessErr.fileNotFound :=
  claim6_amended (fun _ => false) (str "repo") [] (str "g") (some true) (some true)
    (by decide) rfl rfl

/-- C7: the safe wrapper escalates an environment error with errno 24 to an
unrecoverable error and propagates every other outcome unchanged. -/
theorem claim7_safe_errno24 (α : Type) (r : Except TransportErr α) :
    (r = Except.error (TransportErr.envError (some 24)) →
      safeWrap r = Except.error (TransportErr.unrecoverable (some 24))) ∧
    (∀ a : α, r = Except.ok a → safeWrap r = r) ∧
    (∀ e : TransportErr, r = Except.error e →
      e ≠ TransportErr.envError (some 24) → safeWrap r = r) := by
  refine ⟨?_, ?_, ?_⟩
  · intro h
    subst h
    rfl
  · intro a h
    subst h
    rfl
  · intro e h hne
    subst h
    cases e with
    | envError eo =>
        have heo : eo ≠ some 24 := fun hh => hne (by rw [hh])
        show (if eo = some 24 then Except.error (TransportErr.unrecoverable eo)
              else Except.error (TransportErr.envError eo))
            = (Except.error (TransportErr.envError eo) : Except TransportErr α)
        rw [if_neg heo]
    | unrecoverable eo => rfl
    | other => rfl

/-- Witness for C7 at the errno-24 environment error. -/
theorem claim7_witness :
    safeWrap (α := Unit) (Except.error (TransportErr.envError (some 24)))
      = Except.error (TransportErr.unrecoverable (some 24)) :=
  (claim7_safe_errno24 Unit (Except.error (TransportErr.envError (some 24)))).1 rfl

/-- C8: the claim states the three marker codecs round-trip.  The
placeholder and lock codecs do, and the message codec as documented does,
but the code contradicts the claim for messages as executed: computing a
message name raises AttributeError because the body reads the misspelt
attribute message_hash. -/
theorem claim8_codec_roundtrip :
    messageRaw defaultCfg (str "foo") (str "foo")
      = Except.error PyExc.attributeError ∧
    (∀ f : Name,
      isPlaceholderRaw defaultCfg (placeholderRaw defaultCfg f) = true ∧
      fromPlaceholderRaw defaultCfg (placeholderRaw defaultCfg f) = f ∧
      isLockRaw defaultCfg (lockRaw defaultCfg f) = true ∧
      fromLockRaw defaultCfg (lockRaw defaultCfg f) = f) ∧
    (∀ f fpath : Name,
      ∃ m : Name, messageRawIntended defaultCfg f fpath = Except.ok m ∧
        isMessageRaw defaultCfg m = true ∧ fromMessageRaw defaultCfg m = f) := by
  refine ⟨rfl, ?_, ?_⟩
  · intro f
    exact ⟨isPlaceholderRaw_affix _ _, fromPlaceholderRaw_affix _ _,
      isLockRaw_affix _ _, fromLockRaw_affix _ _⟩
  · intro f fpath
    refine ⟨defaultCfg.msgPre ++ f ++ defaultCfg.msgSuf, rfl, ?_, ?_⟩
    · unfold isMessageRaw
      rw [Bool.and_eq_true]
      refine ⟨?_, isSuffixOf_append_self _ _⟩
      rw [List.append_assoc]
      exact isPrefixOf_append_self _ _
    · exact pySliceFrom_affix defaultCfg.msgPre defaultCfg.msgSuf f

/-- C9: the safe placeholder-name wrapper is idempotent on paths, and so is
the safe lock-name wrapper. -/
theorem claim9_safe_wrappers_idempotent (p : Name) :
    placeholderPath defaultCfg (placeholderPath defaultCfg p)
      = placeholderPath defaultCfg p ∧
    lockPath defaultCfg (lockPath defaultCfg p) = lockPath defaultCfg p :=
  ⟨withPath_idem (safePlaceholder defaultCfg) safePlaceholder_props p,
   withPath_idem (safeLock defaultCfg) safeLock_props p⟩

/-- C10: for any fixed listing, the file-by-file hasPlaceholder of the base
Relay and the list-based hasPlaceholder of IRelay agree, and likewise the
two hasLock implementations. -/
theorem claim10_has_marker_agree (listing : Name → List Name) (rf : Name) :
    hasPlaceholderBase defaultCfg listing rf = hasPlaceholderI defaultCfg listing rf ∧
    hasLockBase defaultCfg listing rf = hasLockI defaultCfg listing rf := by
  have hfns : ((pySplit rf).2).all (· ≠ '/') = true := splitTail_all_no_slash rf
  constructor
  · have hnames : (placeholderRaw defaultCfg (pySplit rf).2).all (· ≠ '/') = true := by
      unfold placeholderRaw
      rw [List.all_append, List.all_append, hfns]
      decide
    have hsp : pySplit (placeholderRaw defaultCfg (pySplit rf).2)
        = ([], placeholderRaw defaultCfg (pySplit rf).2) := pySplit_no_slash _ hnames
    have hph : isPlaceholderPath defaultCfg (placeholderRaw defaultCfg (pySplit rf).2)
        = true := by
      unfold isPlaceholderPath
      rw [hsp]
      exact isPlaceholderRaw_affix _ _
    unfold hasPlaceholderBase hasPlaceholderI existsBlob listPlaceholders
    by_cases hdn : (pySplit rf).1 = []
    · rw [if_pos hdn, hsp, hdn]
      exact mem_filter_decide_eq _ _ _ hph
    · rw [if_neg hdn]
      exact mem_filter_decide_eq _ _ _ hph
  · have hnames : (lockRaw defaultCfg (pySplit rf).2).all (· ≠ '/') = true := by
      unfold lockRaw
      rw [List.all_append, List.all_append, hfns]
      decide
    have hsp : pySplit (lockRaw defaultCfg (pySplit rf).2)
        = ([], lockRaw defaultCfg (pySplit rf).2) := pySplit_no_slash _ hnames
    have hlk : isLockPath defaultCfg (lockRaw defaultCfg (pySplit rf).2) = true := by
      unfold isLockPath
      rw [hsp]
      exact isLockRaw_affix _ _
    unfold hasLockBase hasLockI existsBlob listLocks
    by_cases hdn : (pySplit rf).1 = []
    · rw [if_pos hdn, hsp, hdn]
      exact mem_filter_decide_eq _ _ _ hlk
    · rw [if_neg hdn]
      exact mem_filter_decide_eq _ _ _ hlk

/-- C3 counterexample: the claim states that an ownerless lock whose listed
mtime is older than lock_timeout seconds is always returned.  A lock with
mtime 0 is 10000 seconds old against a 3600-second timeout, yet the
listing is empty because a zero mtime is falsy and skipped. -/
theorem claim3_counterexample :
    listCorrupted defaultCfg (str "A") 3600 (fun _ => []) 10000 []
        [(str ".f.lock", 0)] = [] ∧
    (3600 : Int) < 10000 - 0 ∧
    isLockPath defaultCfg (str ".f.lock") = true :=
  ⟨rfl, by decide, by decide⟩

/-- C3 as amended: with a configured client and a nonzero timeout, a lock
target appears in listCorrupted exactly when some listed lock decodes to it
and either its parsed owner equals this client (regardless of age) or it
has no owner, a nonzero listed mtime, and is older than lock_timeout
seconds; in particular a lock owned by a different client never appears. -/
theorem claim3_amended (c : Cfg) (client : Name) (T : Int) (owner : Name → Name)
    (now : Int) (rdir : Name) (ls : List (Name × Int)) (t : Name)
    (hc : client ≠ []) (hT : T ≠ 0) :
    t ∈ listCorrupted c client T owner now rdir ls ↔
      ∃ e : Name × Int, e ∈ ls ∧ pyJoin rdir (fromLockPath c e.1) = t ∧
        isLockPath c e.1 = true ∧
        (owner t = client ∨ (owner t = [] ∧ e.2 ≠ 0 ∧ T < now - e.2)) := by
  have hg : ¬(client = [] ∧ T = 0) := fun h => hc h.1
  unfold listCorrupted
  rw [if_neg hg, List.mem_map]
  constructor
  · rintro ⟨e, he, heq⟩
    rw [List.mem_filter] at he
    obtain ⟨hmem, hpred⟩ := he
    simp only [Bool.and_eq_true] at hpred
    obtain ⟨hl, hx⟩ := hpred
    refine ⟨e, hmem, heq, hl, ?_⟩
    rw [← heq]
    by_cases how : owner (pyJoin rdir (fromLockPath c e.1)) = []
    · rw [if_neg (not_ne_iff.mpr how)] at hx
      simp only [Bool.and_eq_true, bne_iff_ne, decide_eq_true_eq] at hx
      exact Or.inr ⟨how, hx.1.1, hx.2⟩
    · rw [if_pos how] at hx
      exact Or.inl (by simpa using hx)
  · rintro ⟨e, hmem, heq, hl, hcase⟩
    refine ⟨e, ?_, heq⟩
    rw [List.mem_filter]
    refine ⟨hmem, ?_⟩
    simp only [Bool.and_eq_true]
    refine ⟨hl, ?_⟩
    rw [← heq] at hcase
    rcases hcase with hcl | ⟨how, hm, hlt⟩
    · have hne : owner (pyJoin rdir (fromLockPath c e.1)) ≠ [] := by
        rw [hcl]
        exact hc
      rw [if_pos hne]
      simpa using hcl
    · rw [if_neg (not_ne_iff.mpr how)]
      simp only [Bool.and_eq_true, bne_iff_ne, decide_eq_true_eq]
      exact ⟨⟨hm, hT⟩, hlt⟩

/-- Witness for C3 as amended: a stale ownerless lock is listed. -/
theorem claim3_witness :
    str "f" ∈ listCorrupted defaultCfg (str "A") 3600 (fun _ => []) 10000 []
        [(str ".f.lock", 100)] ↔
      ∃ e : Name × Int, e ∈ [(str ".f.lock", (100 : Int))] ∧
        pyJoin [] (fromLockPath defaultCfg e.1) = str "f" ∧
        isLockPath defaultCfg e.1 = true ∧
        ((fun _ => ([] : Name)) (str "f") = str "A" ∨
          ((fun _ => ([] : Name)) (str "f") = [] ∧ e.2 ≠ 0 ∧
            (3600 : Int) < 10000 - e.2)) :=
  claim3_amended defaultCfg (str "A") 3600 (fun _ => []) 10000 []
    [(str ".f.lock", 100)] (str "f") (by decide) (by decide)

/-- C4 counterexample: the claim states listReady never returns a name the
codec classifies as a marker.  A message marker passes both filters of
listReady and is returned although isSpecial classifies it as a marker. -/
theorem claim4_counterexample :
    listReady defaultCfg [str ".f.message"] = [str ".f.message"] ∧
    isSpecialPath defaultCfg (str ".f.message") = true :=
  ⟨by decide, by decide⟩

/-- C4 as amended: listReady returns exactly the listed names whose
basename is neither a lock nor a placeholder and whose lock name, joined
onto the same directory, is absent from the listing; message markers are
not filtered out. -/
theorem claim4_amended (c : Cfg) (ls : List Name) (f : Name) :
    f ∈ listReady c ls ↔
      f ∈ ls ∧ isLockRaw c (pySplit f).2 = false ∧
        isPlaceholderRaw c (pySplit f).2 = false ∧
        pyJoin (pySplit f).1 (lockRaw c (pySplit f).2) ∉ ls := by
  unfold listReady
  rw [List.mem_filter]
  simp only [Bool.and_eq_true, Bool.not_eq_true', decide_eq_false_iff_not, and_assoc]

end Escale
